import Mathlib

/-
Verification of the personality-update and matching core of the
mcp-traits-matcher server (src/src/traits_matcher_server.py, src/src/daos.py).

Modelling conventions:
- SQLite tables become Lean lists of records kept in retrieval (insertion)
  order; `SELECT ... WHERE key=?` becomes `List.find?` on the key, a SQL
  `UPDATE ... WHERE key=?` maps every matching row.
- Python floats become exact rationals; the claims under test are about the
  algebraic content of the update and ranking rules, not about rounding.
- Each tool is a function from a server state to a result paired with the
  state after the call; a Python exception becomes an `Except.error`.
- `scipy.spatial.distance.euclidean` is the square root of `distSq` below.
  `sorted` compares those square roots; since the square root is strictly
  monotone on nonnegatives, sorting on `distSq` produces the same list with
  the same ties, and theorems about the ranking are stated through
  `Real.sqrt` of the squared distance.
- Python `sorted` is a stable sort, modelled by `List.mergeSort` (also a
  stable merge sort).
-/

namespace TraitsMatcher

/-- Row of the `persons` table: person TEXT PRIMARY KEY, friendliness REAL,
dominance REAL, n_friendliness INTEGER, n_dominance INTEGER. -/
structure Person where
  name : String
  friendliness : ℚ
  dominance : ℚ
  n_friendliness : ℕ
  n_dominance : ℕ
deriving Repr, DecidableEq

/-- Row of the `traits` table: trait TEXT PRIMARY KEY, friendliness REAL,
dominance REAL. -/
structure TraitRec where
  trait : String
  friendliness : ℚ
  dominance : ℚ
deriving Repr, DecidableEq

/-- The `Personality` pydantic model: a (friendliness, dominance) pair. -/
structure Personality where
  friendliness : ℚ
  dominance : ℚ
deriving Repr, DecidableEq

/-- Contents of the two SQLite stores (`mcp_persons.db`, `mcp_traits.db`),
rows in retrieval order. -/
structure ServerState where
  persons : List Person
  traits : List TraitRec
deriving Repr, DecidableEq

/-- Helper for `tokenize`: split a character list at whitespace runs,
accumulating the current word in reverse. Models Python `str.split()`
with no separator argument (runs of whitespace, empty pieces dropped). -/
def splitWsAux : List Char → List Char → List (List Char)
  | [], acc => if acc.isEmpty then [] else [acc.reverse]
  | c :: cs, acc =>
    if c.isWhitespace then
      if acc.isEmpty then splitWsAux cs [] else acc.reverse :: splitWsAux cs []
    else splitWsAux cs (c :: acc)

/-- `description.lower().split()` (traits_matcher_server.py lines 181, 217):
lowercase every character, then split on whitespace runs. There is no
minimum-length filter in the source. -/
def tokenize (text : String) : List String :=
  (splitWsAux (text.data.map Char.toLower) []).map String.mk

/-- `MCPPersonDAO.get_person`: `SELECT * FROM persons WHERE person=?`,
first row or none. -/
def getPerson (ps : List Person) (name : String) : Option Person :=
  ps.find? (fun p => p.name = name)

/-- `MCPTraitDAO.get_trait`: `SELECT * FROM traits WHERE trait=?`, convert
the row to a `Personality` or return none. -/
def getTrait (ts : List TraitRec) (name : String) : Option Personality :=
  (ts.find? (fun t => t.trait = name)).map (fun t => ⟨t.friendliness, t.dominance⟩)

/-- The UPDATE statement shared by both DAO copies:
`UPDATE persons SET friendliness=?, dominance=?, n_friendliness=?,
n_dominance=? WHERE person=?`. The inline DAO of traits_matcher_server.py
runs exactly this with no rowcount check, so on an unknown name it returns
normally, having changed nothing. -/
def updatePersonality (ps : List Person) (name : String) (pers : Personality)
    (nf nd : ℕ) : List Person :=
  ps.map (fun p =>
    if p.name = name then
      { p with friendliness := pers.friendliness, dominance := pers.dominance,
               n_friendliness := nf, n_dominance := nd }
    else p)

/-- `MCPPersonDAO.update_personality` of daos.py (lines 95-113): runs the
UPDATE, then raises a DatabaseError when `cursor.rowcount == 0`, i.e. when
no row has the given name. -/
def update_personality_dao (ps : List Person) (name : String)
    (pers : Personality) (nf nd : ℕ) : Except String (List Person) :=
  if ps.countP (fun p => p.name = name) = 0 then
    .error ("Person " ++ name ++ " not found for update")
  else
    .ok (updatePersonality ps name pers nf nd)

/-- `MCPPersonDAO.add_person`: INSERT a fresh row with friendliness 0.0,
dominance 0.0 and both counters 0. -/
def add_person (ps : List Person) (name : String) : List Person :=
  ps ++ [⟨name, 0, 0, 0, 0⟩]

/-- `MCPTraitDAO.add_trait`: INSERT a trait row. -/
def add_trait (ts : List TraitRec) (name : String) (p : Personality) : List TraitRec :=
  ts ++ [⟨name, p.friendliness, p.dominance⟩]

/-- `create_person` tool (traits_matcher_server.py lines 160-167). -/
def create_person (s : ServerState) (name : String) :
    Except String String × ServerState :=
  match getPerson s.persons name with
  | some _ => (.error ("Person " ++ name ++ " already exists."), s)
  | none => (.ok ("Person " ++ name ++ " created."),
      { s with persons := add_person s.persons name })

/-- `add_description` tool (traits_matcher_server.py lines 169-192). The
`person` row is fetched once, before the word loop, and is never re-read
inside it: every iteration computes its update from that one fetch, so a
later recognized word in the same description overwrites the write of an
earlier one instead of compounding with it. -/
def add_description (s : ServerState) (name desc : String) :
    Except String String × ServerState :=
  match getPerson s.persons name with
  | none => (.error ("Person " ++ name ++ " not found."), s)
  | some person =>
      (.ok ("Description added to person " ++ name ++ "."),
        { s with persons := (tokenize desc).foldl (fun ps word =>
            match getTrait s.traits word with
            | none => ps
            | some t =>
                updatePersonality ps name
                  ⟨(person.friendliness * (person.n_friendliness : ℚ) + t.friendliness) /
                      ((person.n_friendliness : ℚ) + 1),
                   (person.dominance * (person.n_dominance : ℚ) + t.dominance) /
                      ((person.n_dominance : ℚ) + 1)⟩
                  (person.n_friendliness + 1) (person.n_dominance + 1)) s.persons })

/-- `create_trait` tool (traits_matcher_server.py lines 194-205). The
[-10, 10] range check on the scores happens in the pydantic transport
boundary, outside this body. -/
def create_trait (s : ServerState) (name : String) (f d : ℚ) :
    Except String String × ServerState :=
  match getTrait s.traits name with
  | some _ => (.error ("Trait with name " ++ name ++ " already exists"), s)
  | none => (.ok ("Trait " ++ name ++ " created."),
      { s with traits := add_trait s.traits name ⟨f, d⟩ })

/-- One step of building the `trait_weights` Python dict: first insertion of
a key appends it; re-assigning an existing key keeps its position, and the
assigned value is always 1.0. -/
def insertWeight (acc : List (String × ℚ)) (w : String) : List (String × ℚ) :=
  if acc.any (fun kv => kv.1 = w) then acc else acc ++ [(w, 1)]

/-- `trait_weights` of `find_matches` (lines 217-222): for every token that
resolves in the trait store, set its dict entry to weight 1.0. -/
def traitWeights (ts : List TraitRec) (words : List String) : List (String × ℚ) :=
  words.foldl (fun acc word =>
    match getTrait ts word with
    | none => acc
    | some _ => insertWeight acc word) []

/-- `trait_dao.get_trait(trait).friendliness` as used on line 228; the key
was inserted into `trait_weights` only after a successful lookup in the
unchanged store, so the `none` branch is never reached there. -/
def traitF (ts : List TraitRec) (w : String) : ℚ :=
  match getTrait ts w with
  | some t => t.friendliness
  | none => 0

/-- `trait_dao.get_trait(trait).dominance` as used on line 229. -/
def traitD (ts : List TraitRec) (w : String) : ℚ :=
  match getTrait ts w with
  | some t => t.dominance
  | none => 0

/-- Target personality of `find_matches` (lines 228-230): weighted average
of the matched traits, weights summed in the denominator. -/
def targetPersonality (ts : List TraitRec) (tw : List (String × ℚ)) : Personality :=
  ⟨(tw.map (fun kv => traitF ts kv.1 * kv.2)).sum / (tw.map Prod.snd).sum,
   (tw.map (fun kv => traitD ts kv.1 * kv.2)).sum / (tw.map Prod.snd).sum⟩

/-- Squared Euclidean distance between two personality points;
`distance.euclidean` on lines 237-240 is its square root. -/
def distSq (p q : Personality) : ℚ :=
  (p.friendliness - q.friendliness) ^ 2 + (p.dominance - q.dominance) ^ 2

/-- The `distances` list of lines 234-241: one (name, squared distance)
pair per person, in retrieval order. -/
def personDistances (ps : List Person) (target : Personality) : List (String × ℚ) :=
  ps.map (fun p => (p.name, distSq ⟨p.friendliness, p.dominance⟩ target))

/-- `find_matches` tool (lines 207-247). When no token matches a trait the
source executes `Personality(0.0, 0.0)`: positional construction of a
pydantic BaseModel, which raises a TypeError, so that branch is an error.
Otherwise the persons are sorted by distance (stable, modelled on the
squared distance, see the header comment) and only the names are kept;
an empty name list is replaced by the single sentinel entry. -/
def find_matches (s : ServerState) (_company job : String) :
    Except String (List String) × ServerState :=
  let words := tokenize job
  let tw := traitWeights s.traits words
  if tw = [] then
    (.error "TypeError: positional arguments not accepted by BaseModel", s)
  else
    let target := targetPersonality s.traits tw
    let distances := personDistances s.persons target
    let names := (distances.mergeSort (fun a b => a.2 ≤ b.2)).map Prod.fst
    if names = [] then (.ok ["No matching persons were found"], s)
    else (.ok names, s)

/-- One public tool invocation. -/
inductive Op where
  | createPerson (name : String)
  | addDescription (name desc : String)
  | createTrait (name : String) (f d : ℚ)
  | findMatches (company job : String)

/-- State transition of one tool call (results discarded; a failed call
leaves the state unchanged). -/
def step (s : ServerState) : Op → ServerState
  | .createPerson n => (create_person s n).2
  | .addDescription n d => (add_description s n d).2
  | .createTrait n f d => (create_trait s n f d).2
  | .findMatches c j => (find_matches s c j).2

/-- Run a sequence of tool calls. -/
def run (s : ServerState) (ops : List Op) : ServerState :=
  ops.foldl step s

/-- Apply one description (as one tool call) after another. -/
def runDescriptions (s : ServerState) (name : String) (ds : List String) : ServerState :=
  ds.foldl (fun st d => (add_description st name d).2) s

/-- Section 4.3 update rule applied to a person record that reflects all
previous writes: fold one observed trait into the running average and
advance both counters. This is what one `add_description` call does when
its description holds exactly one recognized word, since the call fetches
the person freshly. -/
def applyTrait (p : Person) (t : Personality) : Person :=
  ⟨p.name,
   (p.friendliness * (p.n_friendliness : ℚ) + t.friendliness) / ((p.n_friendliness : ℚ) + 1),
   (p.dominance * (p.n_dominance : ℚ) + t.dominance) / ((p.n_dominance : ℚ) + 1),
   p.n_friendliness + 1, p.n_dominance + 1⟩

/-- Every stored person has equal observation counters. -/
def CountsEq (s : ServerState) : Prop :=
  ∀ p ∈ s.persons, p.n_friendliness = p.n_dominance

/-! ### Helper lemmas -/

theorem find_matches_snd (s : ServerState) (c j : String) :
    (find_matches s c j).2 = s := by
  rw [find_matches]
  dsimp only
  split
  · rfl
  · split <;> rfl

theorem getPerson_update_self (ps : List Person) (name : String) (pers : Personality)
    (nf nd : ℕ) (p : Person) (hp : getPerson ps name = some p) :
    getPerson (updatePersonality ps name pers nf nd) name =
      some { p with friendliness := pers.friendliness, dominance := pers.dominance,
                    n_friendliness := nf, n_dominance := nd } := by
  induction ps with
  | nil => simp [getPerson] at hp
  | cons q qs ih =>
    by_cases h : q.name = name
    · rw [getPerson, List.find?_cons_of_pos _ (by simpa using h)] at hp
      cases hp
      rw [updatePersonality, List.map_cons, if_pos h, getPerson,
        List.find?_cons_of_pos _ (by simpa using h)]
    · rw [getPerson, List.find?_cons_of_neg _ (by simpa using h)] at hp
      rw [updatePersonality, List.map_cons, if_neg h, getPerson,
        List.find?_cons_of_neg _ (by simpa using h)]
      exact ih hp

theorem getPerson_update_other (ps : List Person) (name : String) (pers : Personality)
    (nf nd : ℕ) (m : String) (hm : m ≠ name) :
    getPerson (updatePersonality ps name pers nf nd) m = getPerson ps m := by
  induction ps with
  | nil => rfl
  | cons q qs ih =>
    by_cases h : q.name = name
    · rw [updatePersonality, List.map_cons, if_pos h, getPerson,
        List.find?_cons_of_neg _ (by simp [h]; exact fun hq => hm hq.symm), getPerson,
        List.find?_cons_of_neg _ (by simp [h]; exact fun hq => hm hq.symm)]
      exact ih
    · rw [updatePersonality, List.map_cons, if_neg h]
      by_cases hqm : q.name = m
      · rw [getPerson, List.find?_cons_of_pos _ (by simpa using hqm), getPerson,
          List.find?_cons_of_pos _ (by simpa using hqm)]
      · rw [getPerson, List.find?_cons_of_neg _ (by simpa using hqm), getPerson,
          List.find?_cons_of_neg _ (by simpa using hqm)]
        exact ih

theorem update_not_found (ps : List Person) (name : String) (pers : Personality)
    (nf nd : ℕ) (h : getPerson ps name = none) :
    updatePersonality ps name pers nf nd = ps := by
  rw [getPerson, List.find?_eq_none] at h
  rw [updatePersonality]
  exact (List.map_congr_left (g := id)
    (fun x hx => if_neg (by simpa using h x hx))).trans (List.map_id ps)

theorem foldl_eq_of_no_match {α : Type} (ts : List TraitRec)
    (g : α → String → Personality → α) :
    ∀ (ws : List String) (a : α), (∀ w ∈ ws, getTrait ts w = none) →
      ws.foldl (fun acc w =>
        match getTrait ts w with
        | none => acc
        | some t => g acc w t) a = a
  | [], _, _ => rfl
  | w :: ws, a, h => by
    rw [List.foldl_cons]
    have hw : getTrait ts w = none := h w (List.mem_cons_self w ws)
    rw [hw]
    exact foldl_eq_of_no_match ts g ws a (fun x hx => h x (List.mem_cons_of_mem w hx))

theorem countP_name_eq_zero (ps : List Person) (name : String) :
    ps.countP (fun p => p.name = name) = 0 ↔ getPerson ps name = none := by
  rw [getPerson, List.find?_eq_none, List.countP_eq_zero]

/-! ### Claims -/

/-- C6: for every name not present in the person store, add_description
fails before any update is attempted (the NotFound of the spec surfaces as
an error result) and the state, in particular the person store, is
completely unchanged. -/
theorem add_description_unknown_person (s : ServerState) (name desc : String)
    (h : getPerson s.persons name = none) :
    add_description s name desc = (.error ("Person " ++ name ++ " not found."), s) := by
  simp only [add_description, h]

/-- Witness for C6. -/
theorem add_description_unknown_person_example :
    add_description ⟨[⟨"ann", 1, 2, 1, 1⟩], []⟩ "ghost" "friendly" =
      (.error ("Person " ++ "ghost" ++ " not found."), ⟨[⟨"ann", 1, 2, 1, 1⟩], []⟩) :=
  add_description_unknown_person _ _ _ (by decide)

/-- C7: for an existing person and a description in which no token matches
a stored trait, add_description reports success and the whole state, hence
in particular the full stored record of the person, is unchanged. -/
theorem add_description_no_trait_noop (s : ServerState) (name desc : String) (p : Person)
    (hp : getPerson s.persons name = some p)
    (hm : ∀ w ∈ tokenize desc, getTrait s.traits w = none) :
    add_description s name desc =
      (.ok ("Description added to person " ++ name ++ "."), s) := by
  simp only [add_description, hp]
  rw [foldl_eq_of_no_match _ _ _ _ hm]

/-- Witness for C7. -/
theorem add_description_no_trait_noop_example :
    add_description ⟨[⟨"ann", 1, 2, 1, 1⟩], [⟨"bossy", 1, 2⟩]⟩ "ann" "kind and gentle" =
      (.ok ("Description added to person " ++ "ann" ++ "."),
       ⟨[⟨"ann", 1, 2, 1, 1⟩], [⟨"bossy", 1, 2⟩]⟩) :=
  add_description_no_trait_noop _ _ _ ⟨"ann", 1, 2, 1, 1⟩ (by decide) (by decide)

/-- C10: find_matches is read-only: the person store and the trait store
after the call are identical to their contents before the call, for every
input and every starting state. -/
theorem find_matches_read_only (s : ServerState) (c j : String) :
    (find_matches s c j).2.persons = s.persons ∧
      (find_matches s c j).2.traits = s.traits := by
  rw [find_matches_snd]
  exact ⟨rfl, rfl⟩

/-- C2 (counterexample): the tokenizer does not discard short tokens; the
single-letter token a survives tokenization of the text I am a robot. -/
theorem tokenize_keeps_single_letter :
    "a" ∈ tokenize "I am a robot" ∧ ("a" : String).length = 1 := by decide

/-- C2 (amended): the tokenizer splits on whitespace and lowercases every
token, but it has no minimum-length filter: a single-letter token is kept
and is looked up against the trait store, so a one-letter trait is applied
by add_description. Here the description x A tokenizes to the two tokens
x and a, the unknown token x is skipped, and the one-letter trait a is
folded into the fresh person. -/
theorem tokenize_no_length_filter (f d : ℚ) :
    add_description ⟨[⟨"p", 0, 0, 0, 0⟩], [⟨"a", f, d⟩]⟩ "p" "x A" =
      (.ok ("Description added to person " ++ "p" ++ "."),
       ⟨[⟨"p", f, d, 1, 1⟩], [⟨"a", f, d⟩]⟩) := by
  have ht : tokenize "x A" = ["x", "a"] := by decide
  have hp : getPerson [(⟨"p", 0, 0, 0, 0⟩ : Person)] "p" = some ⟨"p", 0, 0, 0, 0⟩ := by
    decide
  have h1 : getTrait [(⟨"a", f, d⟩ : TraitRec)] "x" = none := by
    simp [getTrait]
  have h2 : getTrait [(⟨"a", f, d⟩ : TraitRec)] "a" = some ⟨f, d⟩ := by
    simp [getTrait]
  simp only [add_description, hp, ht, List.foldl_cons, List.foldl_nil, h1, h2]
  simp [updatePersonality]

/-- C9: behaviour of update_personality in daos.py: on an unknown name it
fails (rowcount check) and the UPDATE changes nothing; on a known name it
overwrites exactly the four mutable fields with the supplied values and
leaves every other person unchanged. -/
theorem update_personality_dao_spec (ps : List Person) (name : String)
    (pers : Personality) (nf nd : ℕ) :
    (getPerson ps name = none →
      update_personality_dao ps name pers nf nd =
          .error ("Person " ++ name ++ " not found for update") ∧
        updatePersonality ps name pers nf nd = ps) ∧
    (∀ p : Person, getPerson ps name = some p →
      update_personality_dao ps name pers nf nd =
          .ok (updatePersonality ps name pers nf nd) ∧
        getPerson (updatePersonality ps name pers nf nd) name =
          some ⟨p.name, pers.friendliness, pers.dominance, nf, nd⟩ ∧
        ∀ m, m ≠ name →
          getPerson (updatePersonality ps name pers nf nd) m = getPerson ps m) := by
  constructor
  · intro h
    refine ⟨?_, update_not_found ps name pers nf nd h⟩
    rw [update_personality_dao, if_pos ((countP_name_eq_zero ps name).2 h)]
  · intro p hp
    have hcount : ¬ ps.countP (fun q => q.name = name) = 0 := by
      intro h0
      rw [(countP_name_eq_zero ps name).1 h0] at hp
      cases hp
    refine ⟨by rw [update_personality_dao, if_neg hcount], ?_, ?_⟩
    · exact getPerson_update_self ps name pers nf nd p hp
    · intro m hm
      exact getPerson_update_other ps name pers nf nd m hm

/-- Witness for C9. -/
theorem update_personality_dao_spec_example :
    update_personality_dao [⟨"bea", 0, 0, 0, 0⟩] "zed" ⟨1, 2⟩ 3 4 =
        .error ("Person " ++ "zed" ++ " not found for update") ∧
      getPerson (updatePersonality [⟨"bea", 0, 0, 0, 0⟩] "bea" ⟨7, 3⟩ 5 2) "bea" =
        some ⟨"bea", 7, 3, 5, 2⟩ :=
  ⟨((update_personality_dao_spec _ _ _ _ _).1 (by decide)).1,
   (((update_personality_dao_spec [⟨"bea", 0, 0, 0, 0⟩] "bea" ⟨7, 3⟩ 5 2).2
      ⟨"bea", 0, 0, 0, 0⟩ (by decide)).2).1⟩

/-- C9 (counterexample): the inline DAO copy in traits_matcher_server.py
runs the same UPDATE with no rowcount check, so updating the unknown name
ghost returns normally, leaving the table unchanged, instead of failing
with NotFound. -/
theorem server_update_unknown_silent :
    updatePersonality [⟨"ann", 1, 2, 3, 4⟩] "ghost" ⟨5, 6⟩ 7 8 =
      [⟨"ann", 1, 2, 3, 4⟩] := by decide

theorem countsEq_update (ps : List Person) (name : String) (pers : Personality)
    (nf nd : ℕ) (hnd : nf = nd)
    (h : ∀ p ∈ ps, p.n_friendliness = p.n_dominance) :
    ∀ p ∈ updatePersonality ps name pers nf nd,
      p.n_friendliness = p.n_dominance := by
  intro p hp
  rw [updatePersonality, List.mem_map] at hp
  obtain ⟨q, hq, rfl⟩ := hp
  by_cases hqn : q.name = name
  · simpa [hqn] using hnd
  · simpa [hqn] using h q hq

theorem countsEq_foldl (ts : List TraitRec) (name : String) (person : Person)
    (heq : person.n_friendliness = person.n_dominance) :
    ∀ (ws : List String) (ps : List Person),
      (∀ p ∈ ps, p.n_friendliness = p.n_dominance) →
      ∀ p ∈ ws.foldl (fun ps word =>
          match getTrait ts word with
          | none => ps
          | some t =>
              updatePersonality ps name
                ⟨(person.friendliness * (person.n_friendliness : ℚ) + t.friendliness) /
                    ((person.n_friendliness : ℚ) + 1),
                 (person.dominance * (person.n_dominance : ℚ) + t.dominance) /
                    ((person.n_dominance : ℚ) + 1)⟩
                (person.n_friendliness + 1) (person.n_dominance + 1)) ps,
        p.n_friendliness = p.n_dominance
  | [], ps, h => h
  | w :: ws, ps, h => by
    rw [List.foldl_cons]
    cases hg : getTrait ts w with
    | none =>
      exact countsEq_foldl ts name person heq ws ps h
    | some t =>
      exact countsEq_foldl ts name person heq ws _
        (countsEq_update ps name _ _ _ (by rw [heq]) h)

theorem countsEq_step (s : ServerState) (op : Op) (h : CountsEq s) :
    CountsEq (step s op) := by
  cases op with
  | createPerson n =>
    cases hgp : getPerson s.persons n with
    | some p => simpa only [step, create_person, hgp] using h
    | none =>
      simp only [step, create_person, hgp]
      intro p hp
      rw [add_person] at hp
      rcases List.mem_append.1 hp with h1 | h1
      · exact h p h1
      · rw [List.mem_singleton.1 h1]
  | addDescription n d =>
    cases hgp : getPerson s.persons n with
    | none => simpa only [step, add_description, hgp] using h
    | some person =>
      simp only [step, add_description, hgp]
      exact countsEq_foldl s.traits n person
        (h person (List.mem_of_find?_eq_some hgp)) (tokenize d) s.persons h
  | createTrait n f d =>
    cases hgt : getTrait s.traits n with
    | some p => simpa only [step, create_trait, hgt] using h
    | none => simpa only [step, create_trait, hgt] using h
  | findMatches c j =>
    show CountsEq (find_matches s c j).2
    rw [find_matches_snd]
    exact h

/-- C8: starting from any state in which every person has equal observation
counters (in particular from the empty store, where every person is created
fresh), any sequence of public tool calls preserves
n_friendliness == n_dominance for every stored person, since every accepted
observation increments both counters together. -/
theorem counts_eq_invariant (s : ServerState) (ops : List Op) (h : CountsEq s) :
    CountsEq (run s ops) := by
  induction ops generalizing s with
  | nil => exact h
  | cons op ops ih =>
    rw [run, List.foldl_cons]
    exact ih (step s op) (countsEq_step s op h)

/-- Witness for C8. -/
theorem counts_eq_invariant_example :
    CountsEq (run ⟨[], []⟩ [.createTrait "friendly" 8 2, .createPerson "ann",
      .addDescription "ann" "very friendly and friendly", .findMatches "acme" "friendly"]) :=
  counts_eq_invariant _ _ (fun p hp => absurd hp (List.not_mem_nil p))

theorem add_description_one_word (s : ServerState) (name d w : String)
    (t : Personality) (p : Person)
    (hp : getPerson s.persons name = some p)
    (hw : tokenize d = [w])
    (ht : getTrait s.traits w = some t) :
    add_description s name d =
      (.ok ("Description added to person " ++ name ++ "."),
       { s with persons := (updatePersonality s.persons name
           ⟨(p.friendliness * (p.n_friendliness : ℚ) + t.friendliness) /
               ((p.n_friendliness : ℚ) + 1),
            (p.dominance * (p.n_dominance : ℚ) + t.dominance) /
               ((p.n_dominance : ℚ) + 1)⟩
           (p.n_friendliness + 1) (p.n_dominance + 1)) }) := by
  simp only [add_description, hp, hw, List.foldl_cons, List.foldl_nil, ht]

theorem runDescriptions_aux (name : String) :
    ∀ (obs : List (String × Personality)) (s : ServerState) (p : Person),
      getPerson s.persons name = some p →
      (∀ wt ∈ obs, tokenize wt.1 = [wt.1]) →
      (∀ wt ∈ obs, getTrait s.traits wt.1 = some wt.2) →
      (runDescriptions s name (obs.map Prod.fst)).traits = s.traits ∧
      getPerson (runDescriptions s name (obs.map Prod.fst)).persons name =
        some (obs.foldl (fun q wt => applyTrait q wt.2) p)
  | [], s, p, hp, _, _ => ⟨rfl, hp⟩
  | wt :: obs, s, p, hp, hone, hmatch => by
    have h1 := add_description_one_word s name wt.1 wt.1 wt.2 p hp
      (hone wt (List.mem_cons_self wt obs)) (hmatch wt (List.mem_cons_self wt obs))
    have hs1 : getPerson ((updatePersonality s.persons name
        ⟨(p.friendliness * (p.n_friendliness : ℚ) + wt.2.friendliness) /
            ((p.n_friendliness : ℚ) + 1),
         (p.dominance * (p.n_dominance : ℚ) + wt.2.dominance) /
            ((p.n_dominance : ℚ) + 1)⟩
        (p.n_friendliness + 1) (p.n_dominance + 1))) name =
        some (applyTrait p wt.2) :=
      getPerson_update_self s.persons name _ _ _ p hp
    have hrec := runDescriptions_aux name obs
      { s with persons := (updatePersonality s.persons name
          ⟨(p.friendliness * (p.n_friendliness : ℚ) + wt.2.friendliness) /
              ((p.n_friendliness : ℚ) + 1),
           (p.dominance * (p.n_dominance : ℚ) + wt.2.dominance) /
              ((p.n_dominance : ℚ) + 1)⟩
          (p.n_friendliness + 1) (p.n_dominance + 1)) }
      (applyTrait p wt.2) hs1
      (fun x hx => hone x (List.mem_cons_of_mem wt hx))
      (fun x hx => hmatch x (List.mem_cons_of_mem wt hx))
    constructor
    · show (runDescriptions ((add_description s name wt.1).2) name
        (obs.map Prod.fst)).traits = s.traits
      rw [h1]
      exact hrec.1
    · show getPerson (runDescriptions ((add_description s name wt.1).2) name
        (obs.map Prod.fst)).persons name = _
      rw [h1]
      exact hrec.2

theorem foldl_applyTrait (nm : String) :
    ∀ (ts : List Personality) (F D : ℚ) (k : ℕ),
      (k = 0 → F = 0 ∧ D = 0) →
      ts.foldl (fun q t => applyTrait q t)
          ⟨nm, F / (k : ℚ), D / (k : ℚ), k, k⟩ =
        ⟨nm, (F + (ts.map Personality.friendliness).sum) / ((k : ℚ) + ts.length),
             (D + (ts.map Personality.dominance).sum) / ((k : ℚ) + ts.length),
             k + ts.length, k + ts.length⟩
  | [], F, D, k, h => by simp
  | t :: ts, F, D, k, h => by
    have hF : F / (k : ℚ) * (k : ℚ) = F := by
      rcases Nat.eq_zero_or_pos k with hk | hk
      · rcases h hk with ⟨rfl, -⟩
        simp
      · exact div_mul_cancel₀ F (by exact_mod_cast hk.ne')
    have hD : D / (k : ℚ) * (k : ℚ) = D := by
      rcases Nat.eq_zero_or_pos k with hk | hk
      · rcases h hk with ⟨-, rfl⟩
        simp
      · exact div_mul_cancel₀ D (by exact_mod_cast hk.ne')
    have hstep : applyTrait ⟨nm, F / (k : ℚ), D / (k : ℚ), k, k⟩ t =
        ⟨nm, (F + t.friendliness) / (((k + 1 : ℕ) : ℚ)),
             (D + t.dominance) / (((k + 1 : ℕ) : ℚ)), k + 1, k + 1⟩ := by
      simp only [applyTrait]
      rw [hF, hD]
      push_cast
      rfl
    rw [List.foldl_cons, hstep,
      foldl_applyTrait nm ts (F + t.friendliness) (D + t.dominance) (k + 1)
        (fun hk => absurd hk (Nat.succ_ne_zero k))]
    simp only [List.map_cons, List.sum_cons, List.length_cons, Person.mk.injEq]
    refine ⟨trivial, ?_, ?_, by omega, by omega⟩
    · push_cast
      ring_nf
    · push_cast
      ring_nf

/-- C1 (amended): for a fresh person and any sequence of add_description
calls each of which holds exactly one recognized trait word, the resulting
(friendliness, dominance) is the unweighted arithmetic mean of the observed
traits, in order, and both counters equal the number of observations.
(The compounding clause of the original claim fails: within one call the
person row is read once, before the word loop, so several recognized words
in the same description do not compound; see the counterexample.) -/
theorem add_description_sequence_mean (s : ServerState) (name : String)
    (obs : List (String × Personality))
    (hfresh : getPerson s.persons name = some ⟨name, 0, 0, 0, 0⟩)
    (hone : ∀ wt ∈ obs, tokenize wt.1 = [wt.1])
    (hmatch : ∀ wt ∈ obs, getTrait s.traits wt.1 = some wt.2) :
    getPerson (runDescriptions s name (obs.map Prod.fst)).persons name =
      some ⟨name,
        ((obs.map (fun wt => wt.2.friendliness)).sum) / (obs.length : ℚ),
        ((obs.map (fun wt => wt.2.dominance)).sum) / (obs.length : ℚ),
        obs.length, obs.length⟩ := by
  have haux := (runDescriptions_aux name obs s ⟨name, 0, 0, 0, 0⟩ hfresh hone hmatch).2
  rw [haux]
  have h0 : (⟨name, 0, 0, 0, 0⟩ : Person) =
      ⟨name, 0 / ((0 : ℕ) : ℚ), 0 / ((0 : ℕ) : ℚ), 0, 0⟩ := by
    norm_num
  rw [h0, ← List.foldl_map,
    foldl_applyTrait name (obs.map Prod.snd) 0 0 0 (fun _ => ⟨rfl, rfl⟩)]
  simp [List.map_map, Function.comp]
  exact ⟨rfl, rfl⟩

/-- Store with a fresh person and the two traits of the spec example. -/
def c1State : ServerState :=
  ⟨[⟨"p", 0, 0, 0, 0⟩], [⟨"extrovert", 9, 6⟩, ⟨"introvert", -5, -3⟩]⟩

/-- Witness for C1: the spec example applied in two separate calls,
(9,6) then (-5,-3), yields exactly (2, 3/2) with both counters 2. -/
theorem add_description_sequence_mean_example :
    getPerson (runDescriptions c1State "p" ["extrovert", "introvert"]).persons "p" =
      some ⟨"p", 2, 3 / 2, 2, 2⟩ := by
  have h := add_description_sequence_mean c1State "p"
    [("extrovert", ⟨9, 6⟩), ("introvert", ⟨-5, -3⟩)]
    (by decide) (by decide) (by decide)
  norm_num at h
  exact h

/-- C1 (counterexample): the same two observations inside ONE description.
The loop of add_description reads the person row fetched before the loop,
never the just-written state, so the second recognized word overwrites the
write of the first: the result is (-5, -3) with counters 1, not the
unweighted mean (2, 3/2) with counters 2 that the claim demands. -/
theorem add_description_two_words_last_wins :
    getPerson (add_description c1State "p" "extrovert introvert").2.persons "p" =
        some ⟨"p", -5, -3, 1, 1⟩ ∧
      getPerson (add_description c1State "p" "extrovert introvert").2.persons "p" ≠
        some ⟨"p", 2, 3 / 2, 2, 2⟩ := by
  have ht : tokenize "extrovert introvert" = ["extrovert", "introvert"] := by decide
  have hp : getPerson c1State.persons "p" = some ⟨"p", 0, 0, 0, 0⟩ := by decide
  have h1 : getTrait c1State.traits "extrovert" = some ⟨9, 6⟩ := by decide
  have h2 : getTrait c1State.traits "introvert" = some ⟨-5, -3⟩ := by decide
  have key : (add_description c1State "p" "extrovert introvert").2.persons =
      [⟨"p", -5, -3, 1, 1⟩] := by
    simp only [add_description, hp, ht, List.foldl_cons, List.foldl_nil, h1, h2]
    norm_num [updatePersonality, c1State]
  rw [key]
  exact ⟨by decide, by decide⟩

/-- Store with one person and two traits, for the C3 evaluation. -/
def c3State : ServerState :=
  ⟨[⟨"ann", 2, 3, 1, 1⟩], [⟨"bold", 4, -2⟩, ⟨"friendly", 8, 2⟩]⟩

/-- C3 (code bug evaluation): when no token of the job description matches
a stored trait, the source runs Personality(0.0, 0.0): positional
construction of a pydantic BaseModel, which raises a TypeError, so
find_matches errors instead of using a (0,0) target. The rest of the claim
holds: with at least one match the target is the unweighted mean over the
distinct matched words, a repeated word counting once: bold appears twice
but the target from bold (4,-2) and friendly (8,2) is (6, 0). -/
theorem find_matches_no_match_typeerror :
    (find_matches c3State "acme" "warm caring").1 =
        .error "TypeError: positional arguments not accepted by BaseModel" ∧
      targetPersonality c3State.traits
          (traitWeights c3State.traits (tokenize "be bold bold and friendly")) =
        ⟨6, 0⟩ := by
  constructor
  · have htw : traitWeights c3State.traits (tokenize "warm caring") = [] := by decide
    simp [find_matches, htw]
  · have htw : traitWeights c3State.traits (tokenize "be bold bold and friendly") =
        [("bold", 1), ("friendly", 1)] := by decide
    have hb : traitF c3State.traits "bold" = 4 := by decide
    have hf : traitF c3State.traits "friendly" = 8 := by decide
    have hb2 : traitD c3State.traits "bold" = -2 := by decide
    have hf2 : traitD c3State.traits "friendly" = 2 := by decide
    rw [htw]
    simp only [targetPersonality, List.map_cons, List.map_nil, List.sum_cons,
      List.sum_nil, hb, hf, hb2, hf2]
    norm_num

/-- C4 (amended): find_matches on an empty person store, for a job
description with at least one recognized trait word (otherwise the call
errors, see C3), returns the one-element sentinel list and not an empty
list or an error; the source has this single sentinel string, with no
separate no-persons-in-database sentinel. -/
theorem find_matches_empty_store (s : ServerState) (c j : String)
    (hp : s.persons = [])
    (htw : traitWeights s.traits (tokenize j) ≠ []) :
    find_matches s c j = (.ok ["No matching persons were found"], s) := by
  rw [find_matches]
  dsimp only
  rw [if_neg htw, hp]
  simp [personDistances]

/-- Empty person store with one trait, for the C4 witness. -/
def c4State : ServerState := ⟨[], [⟨"friendly", 8, 2⟩]⟩

/-- Witness for C4. -/
theorem find_matches_empty_store_example :
    find_matches c4State "acme" "friendly people" =
      (.ok ["No matching persons were found"], c4State) :=
  find_matches_empty_store c4State "acme" "friendly people" (by decide) (by decide)

/-- C4 (counterexample): the sentinel returned for an empty person store is
the very string of the no-matching-persons branch, not a sentinel distinct
from it: the source has only one sentinel. -/
theorem find_matches_empty_store_sentinel_value :
    (find_matches ⟨[], [⟨"quiet", -3, -6⟩]⟩ "acme" "quiet type").1 =
      .ok ["No matching persons were found"] := by
  have htw : traitWeights [(⟨"quiet", -3, -6⟩ : TraitRec)] (tokenize "quiet type") =
      [("quiet", 1)] := by decide
  simp [find_matches, htw, personDistances]

/-- C5 (amended): for every nonempty person store and every job description
with at least one recognized trait word (otherwise the call errors, see
C3), find_matches returns exactly the names of all stored persons, sorted
ascending by Euclidean distance (the square root of the squared distance
to the target), ties resolved stably by retrieval order, and the distances
themselves are not part of the result. -/
theorem find_matches_ranking (s : ServerState) (c j : String)
    (hp : s.persons ≠ [])
    (htw : traitWeights s.traits (tokenize j) ≠ []) :
    ∃ ranked : List (String × ℚ),
      (find_matches s c j).1 = .ok (ranked.map Prod.fst) ∧
      ranked.Perm (personDistances s.persons
        (targetPersonality s.traits (traitWeights s.traits (tokenize j)))) ∧
      ranked.Pairwise (fun a b => Real.sqrt (a.2 : ℝ) ≤ Real.sqrt (b.2 : ℝ)) ∧
      (∀ ties : List (String × ℚ),
        List.Sublist ties (personDistances s.persons
          (targetPersonality s.traits (traitWeights s.traits (tokenize j)))) →
        ties.Pairwise (fun a b => a.2 = b.2) →
        List.Sublist ties ranked) := by
  have htrans : ∀ a b c : String × ℚ,
      decide (a.2 ≤ b.2) = true → decide (b.2 ≤ c.2) = true →
      decide (a.2 ≤ c.2) = true := by
    intro a b c hab hbc
    simp only [decide_eq_true_eq] at hab hbc ⊢
    exact le_trans hab hbc
  have htotal : ∀ a b : String × ℚ,
      (decide (a.2 ≤ b.2) || decide (b.2 ≤ a.2)) = true := by
    intro a b
    simp only [Bool.or_eq_true, decide_eq_true_eq]
    exact le_total _ _
  refine ⟨(personDistances s.persons
      (targetPersonality s.traits (traitWeights s.traits (tokenize j)))).mergeSort
      (fun a b => a.2 ≤ b.2), ?_, ?_, ?_, ?_⟩
  · rw [find_matches]
    dsimp only
    rw [if_neg htw]
    have hne : ((personDistances s.persons
        (targetPersonality s.traits (traitWeights s.traits (tokenize j)))).mergeSort
        (fun a b => a.2 ≤ b.2)).map Prod.fst ≠ [] := by
      intro h0
      rw [List.map_eq_nil_iff] at h0
      have hlen := congrArg List.length h0
      rw [List.length_mergeSort] at hlen
      rw [personDistances, List.length_map] at hlen
      exact hp (List.length_eq_zero.1 hlen)
    rw [if_neg hne]
  · exact List.mergeSort_perm _ _
  · exact (List.sorted_mergeSort htrans htotal _).imp
      (fun h => Real.sqrt_le_sqrt (by exact_mod_cast of_decide_eq_true h))
  · intro ties hsub hties
    exact List.sublist_mergeSort htrans htotal
      (hties.imp (fun h => decide_eq_true (le_of_eq h))) hsub

/-- Two persons and one trait: the ranking scenario of the spec. -/
def c5State : ServerState :=
  ⟨[⟨"dana", -1, 2, 1, 1⟩, ⟨"bob", 4, -2, 1, 1⟩], [⟨"analytical", -1, 2⟩]⟩

/-- Witness for C5. -/
theorem find_matches_ranking_example :
    ∃ ranked : List (String × ℚ),
      (find_matches c5State "acme" "analytical work").1 = .ok (ranked.map Prod.fst) ∧
      ranked.Perm (personDistances c5State.persons
        (targetPersonality c5State.traits
          (traitWeights c5State.traits (tokenize "analytical work")))) ∧
      ranked.Pairwise (fun a b => Real.sqrt (a.2 : ℝ) ≤ Real.sqrt (b.2 : ℝ)) ∧
      (∀ ties : List (String × ℚ),
        List.Sublist ties (personDistances c5State.persons
          (targetPersonality c5State.traits
            (traitWeights c5State.traits (tokenize "analytical work")))) →
        ties.Pairwise (fun a b => a.2 = b.2) →
        List.Sublist ties ranked) :=
  find_matches_ranking c5State "acme" "analytical work" (by decide) (by decide)

/-- C5 (counterexample): with a nonempty person store but a job description
none of whose tokens matches a stored trait, find_matches does not return a
ranked name list at all: the positional Personality construction in the
no-match branch errors (see C3). -/
theorem find_matches_no_trait_errors :
    (find_matches ⟨[⟨"solo", 1, 1, 1, 1⟩], []⟩ "acme" "driven work").1 =
        .error "TypeError: positional arguments not accepted by BaseModel" ∧
      (⟨[⟨"solo", 1, 1, 1, 1⟩], []⟩ : ServerState).persons ≠ [] := by
  constructor
  · have htw : traitWeights ([] : List TraitRec) (tokenize "driven work") = [] := by
      decide
    simp [find_matches, htw]
  · decide

end TraitsMatcher
